import Mathlib

/-!
# Verification of the nextgasm rendering pipeline

Shallow embedding of the rendering core of the `nextgasm` firmware:

* `src/src/HT1632C_Display.cpp` — bit-banged HT1632C protocol driver and
  24×8 monochrome framebuffer;
* `src/src/colour_lcd.cpp`      — ST7789V2 bulk/DMA transfer driver;
* `src/src/fire_effect.cpp`     — Doom-fire cellular automaton with
  double-buffered DMA publishing;
* `src/src/matrix_graph.cpp`    — dithering bar renderer with a sliding
  sample history.

Machine integers are modelled as `Nat`/`Int` with explicit masking where
overflow matters; the hardware random generator and the floating-point
square root are modelled as explicit parameters so that theorems quantify
over every possible behaviour.  Mutable buffers are modelled as functions
`Nat → Nat` updated pointwise, mirroring the in-place writes of the C code.
-/

namespace Nextgasm

/-! ## Protocol driver (HT1632C_Display.cpp) -/

/-- `HT1632C_WIDTH` from `HT1632C_Display.h`: number of framebuffer columns. -/
def HT1632C_WIDTH : Nat := 24

/-- `HT1632C_HEIGHT` from `HT1632C_Display.h`: rows per column (one bit each). -/
def HT1632C_HEIGHT : Nat := 8

/-- One event on the three-wire bus: a chip-select edge or one data bit
clocked out on a WR rising edge. -/
inductive WireEv where
  | csLow : WireEv
  | csHigh : WireEv
  | bit : Nat → WireEv
deriving DecidableEq, Repr

/-- `HT1632C_Display::_writeBits(data, numBits)`: clock out `numBits` bits of
`data`, MSB first.  The C loop runs `i = numBits` down to `1`, emitting
`(data >> (i-1)) & 1`; the recursion below emits exactly that sequence. -/
def writeBits (data : Nat) : Nat → List Nat
  | 0 => []
  | n + 1 => ((data >>> n) &&& 1) :: writeBits data n

/-- The data bits clocked out by `HT1632C_Display::flush()` between the CS
edges: write-mode ID `101`, 7-bit start address `0`, then each of the
framebuffer's columns as 8 bits, in forward order `col = 0 .. WIDTH-1`.
The framebuffer is passed as the list of its column bytes. -/
def flushBits (buffer : List Nat) : List Nat :=
  writeBits 0b101 3 ++ writeBits 0x00 7 ++ (buffer.map (fun b => writeBits b 8)).flatten

/-- The full wire transaction of `HT1632C_Display::flush()`: assert CS,
clock the bits, deassert CS. -/
def flushEvents (buffer : List Nat) : List WireEv :=
  [WireEv.csLow] ++ (flushBits buffer).map WireEv.bit ++ [WireEv.csHigh]

/-- Reassemble a bit stream (MSB first) into the byte it encodes. -/
def byteVal (bits : List Nat) : Nat :=
  bits.foldl (fun acc b => 2 * acc + b) 0

/-- Group a bit stream into consecutive bytes (8 bits each, MSB first). -/
def bytesOfBits (bits : List Nat) : List Nat :=
  if h : bits = [] then []
  else byteVal (bits.take 8) :: bytesOfBits (bits.drop 8)
termination_by bits.length
decreasing_by
  simp only [List.length_drop]
  have : bits.length ≠ 0 := fun hl => h (List.length_eq_zero.mp hl)
  omega

/-- The payload bytes of a flush transaction: every byte clocked out after
the 10 header bits (3-bit ID + 7-bit address). -/
def flushPayloadBytes (buffer : List Nat) : List Nat :=
  bytesOfBits ((flushBits buffer).drop 10)

/-- A monochrome framebuffer: column index ↦ column byte
(`uint8_t _buffer[HT1632C_WIDTH]`). -/
def MonoBuf : Type := Nat → Nat

/-- `HT1632C_Display::setPixel(x, y)`: bounds-checked OR of bit `y` into
column `x`; out-of-range calls return without touching the buffer. -/
def setPixel (buf : MonoBuf) (x y : Nat) : MonoBuf :=
  if x ≥ HT1632C_WIDTH ∨ y ≥ HT1632C_HEIGHT then buf
  else fun c => if c = x then buf x ||| (1 <<< y) else buf c

/-- `HT1632C_Display::clearPixel(x, y)`: bounds-checked AND of `~(1 << y)`
(8-bit complement) into column `x`. -/
def clearPixel (buf : MonoBuf) (x y : Nat) : MonoBuf :=
  if x ≥ HT1632C_WIDTH ∨ y ≥ HT1632C_HEIGHT then buf
  else fun c => if c = x then buf x &&& (255 ^^^ (1 <<< y)) else buf c

/-- `HT1632C_Display::getPixel(x, y)`: `(buffer[x] >> y) & 1` as a boolean,
`false` when out of range.  A pure read: it takes no state forward. -/
def getPixel (buf : MonoBuf) (x y : Nat) : Bool :=
  if x ≥ HT1632C_WIDTH ∨ y ≥ HT1632C_HEIGHT then false
  else ((buf x >>> y) &&& 1) != 0

/-- `HT1632C_Display::setColumn(col, data)`: bounds-checked raw column write. -/
def setColumn (buf : MonoBuf) (col data : Nat) : MonoBuf :=
  if col ≥ HT1632C_WIDTH then buf
  else fun c => if c = col then data else buf c

/-! ### Helper lemmas about the flush bit stream -/

theorem writeBits_length (data n : Nat) : (writeBits data n).length = n := by
  induction n with
  | zero => rfl
  | succ n ih => simp [writeBits, ih]

theorem byteVal_writeBits (b n : Nat) :
    (writeBits b n).foldl (fun acc x => 2 * acc + x) 0 = b % 2 ^ n := by
  suffices h : ∀ acc, (writeBits b n).foldl (fun acc x => 2 * acc + x) acc
      = acc * 2 ^ n + b % 2 ^ n by
    simpa using h 0
  induction n with
  | zero => intro acc; simp [writeBits, Nat.mod_one]
  | succ n ih =>
    intro acc
    have hsh : b >>> n = b / 2 ^ n := Nat.shiftRight_eq_div_pow b n
    have hand : (b >>> n) &&& 1 = (b / 2 ^ n) % 2 := by
      rw [hsh, Nat.and_one_is_mod]
    have hmod : b % 2 ^ (n + 1) = b % 2 ^ n + 2 ^ n * (b / 2 ^ n % 2) := by
      have := @Nat.mod_mul (2 ^ n) 2 b
      simpa [pow_succ] using this
    calc (writeBits b (n + 1)).foldl (fun acc x => 2 * acc + x) acc
        = (writeBits b n).foldl (fun acc x => 2 * acc + x)
            (2 * acc + ((b >>> n) &&& 1)) := by
          simp [writeBits]
      _ = (2 * acc + ((b >>> n) &&& 1)) * 2 ^ n + b % 2 ^ n := ih _
      _ = acc * 2 ^ (n + 1) + b % 2 ^ (n + 1) := by
          rw [hand, hmod]; ring

theorem byteVal_writeBits_8 (b : Nat) : byteVal (writeBits b 8) = b % 256 := by
  simpa using byteVal_writeBits b 8

theorem bytesOfBits_cons_block (b : Nat) (rest : List Nat) :
    bytesOfBits (writeBits b 8 ++ rest) = b % 256 :: bytesOfBits rest := by
  have hne : writeBits b 8 ++ rest ≠ [] := by
    intro hcontra
    have := congrArg List.length hcontra
    simp [writeBits_length] at this
  have hlen : (writeBits b 8).length = 8 := writeBits_length b 8
  rw [bytesOfBits, dif_neg hne]
  rw [List.take_left' hlen, List.drop_left' hlen, byteVal_writeBits_8]

theorem bytesOfBits_blocks (buffer : List Nat) :
    bytesOfBits ((buffer.map (fun b => writeBits b 8)).flatten)
      = buffer.map (fun b => b % 256) := by
  induction buffer with
  | nil => simp [bytesOfBits]
  | cons b rest ih =>
    simp only [List.map_cons, List.flatten_cons]
    rw [bytesOfBits_cons_block, ih]

theorem flushPayloadBytes_eq (buffer : List Nat) :
    flushPayloadBytes buffer = buffer.map (fun b => b % 256) := by
  unfold flushPayloadBytes flushBits
  have hassoc : writeBits 0b101 3 ++ writeBits 0x00 7
        ++ (buffer.map (fun b => writeBits b 8)).flatten
      = (writeBits 0b101 3 ++ writeBits 0x00 7)
        ++ (buffer.map (fun b => writeBits b 8)).flatten := by
    rw [List.append_assoc]
  have hlen : (writeBits 0b101 3 ++ writeBits 0x00 7).length = 10 := by
    simp [writeBits_length]
  rw [hassoc, ← hlen, List.drop_left, bytesOfBits_blocks]

theorem count_csLow_map_bit (l : List Nat) :
    (l.map WireEv.bit).count WireEv.csLow = 0 := by
  refine List.count_eq_zero.mpr ?_
  intro hmem
  obtain ⟨b, _, hb⟩ := List.mem_map.mp hmem
  exact WireEv.noConfusion hb

theorem count_csHigh_map_bit (l : List Nat) :
    (l.map WireEv.bit).count WireEv.csHigh = 0 := by
  refine List.count_eq_zero.mpr ?_
  intro hmem
  obtain ⟨b, _, hb⟩ := List.mem_map.mp hmem
  exact WireEv.noConfusion hb

/-- **C1** — corrected.  The spec claims `flush` emits `2 × panel_width`
payload bytes in *reversed* column order with zero padding between columns;
the code (`HT1632C_Display::flush`, lines 305–319) emits exactly
`panel_width` payload bytes, one per column, in *forward* logical order with
no padding, inside a single chip-select-bracketed transaction.  This theorem
states the corrected behaviour: for every framebuffer, the payload bytes of
the flush transaction are precisely the column bytes (mod 256) in forward
order — hence exactly `panel_width` of them for a width-24 framebuffer —
and chip-select brackets the transaction exactly once. -/
theorem flush_payload_forward_no_padding (buffer : List Nat) :
    flushPayloadBytes buffer = buffer.map (fun b => b % 256) ∧
    (buffer.length = HT1632C_WIDTH →
      (flushPayloadBytes buffer).length = HT1632C_WIDTH) ∧
    (flushEvents buffer).count WireEv.csLow = 1 ∧
    (flushEvents buffer).count WireEv.csHigh = 1 ∧
    (flushEvents buffer).head? = some WireEv.csLow ∧
    (flushEvents buffer).getLast? = some WireEv.csHigh := by
  refine ⟨flushPayloadBytes_eq buffer, ?_, ?_, ?_, ?_, ?_⟩
  · intro hlen
    rw [flushPayloadBytes_eq, List.length_map, hlen]
  · simp [flushEvents, List.count_append, count_csLow_map_bit, List.count_cons]
  · simp [flushEvents, List.count_append, count_csHigh_map_bit, List.count_cons]
  · simp [flushEvents]
  · have : flushEvents buffer
        = (WireEv.csLow :: (flushBits buffer).map WireEv.bit) ++ [WireEv.csHigh] := by
      simp [flushEvents]
    rw [this, List.getLast?_concat]

/-- Witness for **C1**: the corrected theorem applied to the concrete
framebuffer holding column bytes `0, 1, …, 23`. -/
theorem flush_payload_forward_no_padding_witness :
    flushPayloadBytes (List.range 24) = (List.range 24).map (fun b => b % 256) ∧
    (flushPayloadBytes (List.range 24)).length = HT1632C_WIDTH :=
  ⟨(flush_payload_forward_no_padding (List.range 24)).1,
   (flush_payload_forward_no_padding (List.range 24)).2.1 (by decide)⟩

/-- **C1** counterexample: on the framebuffer holding column bytes
`0, 1, …, 23`, the flush transaction's payload is *not* `2 × panel_width`
bytes long (it is 24 bytes, not 48), refuting the claim as stated. -/
theorem flush_payload_not_double_width :
    ¬ ((flushPayloadBytes (List.range 24)).length = 2 * HT1632C_WIDTH) := by
  rw [flushPayloadBytes_eq, List.length_map]
  decide

/-- **C9** — confirmed.  For every coordinate pair outside the panel bounds
(`x ≥ 24` or `y ≥ 8`), `setPixel` and `clearPixel` return the framebuffer
unchanged (every column untouched), and `getPixel` returns `false`;
`getPixel` is a pure read, so no state can change. -/
theorem oob_pixel_ops_no_effect (buf : MonoBuf) (x y : Nat)
    (hoob : x ≥ HT1632C_WIDTH ∨ y ≥ HT1632C_HEIGHT) :
    setPixel buf x y = buf ∧ clearPixel buf x y = buf ∧
    getPixel buf x y = false := by
  refine ⟨?_, ?_, ?_⟩ <;> simp [setPixel, clearPixel, getPixel, if_pos hoob]

/-- Witness for **C9**: the all-dark framebuffer at the concrete
out-of-range coordinate `(24, 0)`. -/
theorem oob_pixel_ops_no_effect_witness :
    setPixel (fun _ => 0) 24 0 = (fun _ => 0) ∧
    clearPixel (fun _ => 0) 24 0 = (fun _ => 0) ∧
    getPixel (fun _ => 0) 24 0 = false :=
  oob_pixel_ops_no_effect (fun _ => 0) 24 0 (by left; decide)

/-! ## Dithering bar renderer (matrix_graph.cpp) -/

/-- `get_dim_mask(age, col)` from `matrix_graph.cpp`: the age-dependent
spatial-dithering density mask, with complementary even/odd-column
patterns. -/
def get_dim_mask (age col : Nat) : Nat :=
  if age < 10 then 0xFF
  else if age < 14 then (if col % 2 = 0 then 0xEE else 0xDD)
  else if age < 18 then (if col % 2 = 0 then 0xAA else 0x55)
  else (if col % 2 = 0 then 0x88 else 0x22)

/-- `build_column(height, age, col)` from `matrix_graph.cpp`: the column
byte combining the solid bar, the age-dependent dimming of its body, and
the unconditionally re-ORed peak bit.  `~x` on a `uint8_t` is modelled as
`255 ^^^ x`. -/
def build_column (height age col : Nat) : Nat :=
  if height = 0 then 0x00
  else
    let bar := 255 ^^^ ((1 <<< (8 - height)) - 1)
    let peakBit := 1 <<< (8 - height)
    let body := bar &&& (255 ^^^ peakBit)
    (body &&& get_dim_mask age col) ||| peakBit

/-- **C8** — confirmed.  For every bar height `h` with `0 < h ≤ 8` and every
age and column index, the byte produced by `build_column` has its peak bit
(bit `8 − h`) set regardless of the dithering mask; and for `h = 0` the
produced byte is exactly zero. -/
theorem build_column_peak_always_set (h age col : Nat) :
    build_column 0 age col = 0 ∧
    (1 ≤ h → h ≤ 8 → (build_column h age col).testBit (8 - h) = true) := by
  constructor
  · rfl
  · intro h1 _
    have hne : h ≠ 0 := Nat.one_le_iff_ne_zero.mp h1
    unfold build_column
    rw [if_neg hne]
    have hpeak : (1 <<< (8 - h)).testBit (8 - h) = true := by
      rw [Nat.shiftLeft_eq, one_mul]
      exact Nat.testBit_two_pow_self
    rw [Nat.testBit_lor, hpeak, Bool.or_true]

/-- Witness for **C8**: height 3 at age 0, column 0 — bit 5 (the peak of a
height-3 bar) is set, and a height-0 bar renders as the zero byte. -/
theorem build_column_peak_always_set_witness :
    build_column 0 0 0 = 0 ∧ (build_column 3 0 0).testBit 5 = true :=
  ⟨(build_column_peak_always_set 3 0 0).1,
   (build_column_peak_always_set 3 0 0).2 (by decide) (by decide)⟩

/-- One sampling event of `matrix_graph_tick`: the `memmove` shifts
`history[1..23]` down to `history[0..22]` and the newly computed height is
written at `history[23]`.  On a length-24 list this is exactly
"drop the head, append at the tail". -/
def history_sample (hist : List Nat) (h : Nat) : List Nat :=
  hist.drop 1 ++ [h]

/-- A sequence of sampling events applied in order (oldest first). -/
def history_samples (hist : List Nat) (hs : List Nat) : List Nat :=
  hs.foldl history_sample hist

theorem getElem?_drop_one {α : Type} (l : List α) (i : Nat) (hl : l ≠ []) :
    (l.drop 1)[i]? = l[i + 1]? := by
  cases l with
  | nil => exact absurd rfl hl
  | cons a t => simp

theorem history_samples_eq_drop_append (hs : List Nat) :
    ∀ hist : List Nat, hs.length ≤ hist.length →
      history_samples hist hs = hist.drop hs.length ++ hs := by
  induction hs with
  | nil => intro hist _; simp [history_samples]
  | cons h t ih =>
    intro hist hlen
    have hlen' : t.length + 1 ≤ hist.length := by
      simpa using hlen
    have hpos : 1 ≤ hist.length := by omega
    have hstep : history_samples hist (h :: t)
        = history_samples (hist.drop 1 ++ [h]) t := by
      simp [history_samples, history_sample]
    rw [hstep, ih (hist.drop 1 ++ [h]) (by simp; omega)]
    have hdrop : (hist.drop 1 ++ [h]).drop t.length
        = hist.drop (1 + t.length) ++ [h] := by
      rw [List.drop_append_of_le_length (by simp; omega), List.drop_drop]
    rw [hdrop]
    simp only [List.length_cons, List.append_assoc, List.singleton_append]
    rw [Nat.add_comm 1 t.length]

/-- **C7** — confirmed.  The sample history is a strict FIFO of length 24:
a sampling event moves `history[i+1]` to `history[i]` for every `i < 23` and
writes the new height at `history[23]`; after 24 sampling events with
heights `hs` the history equals `hs` itself, so `history[23]` is the most
recent height and `history[0]` is the height sampled exactly 24 samples
ago. -/
theorem history_strict_fifo (hist : List Nat) (h : Nat) (hs : List Nat)
    (hhist : hist.length = 24) (hhs : hs.length = 24) :
    (∀ i, i < 23 → (history_sample hist h)[i]? = hist[i + 1]?) ∧
    (history_sample hist h)[23]? = some h ∧
    history_samples hist hs = hs ∧
    (history_samples hist hs)[23]? = hs[23]? ∧
    (history_samples hist hs)[0]? = hs[0]? := by
  have hne : hist ≠ [] := by
    intro hcontra; rw [hcontra] at hhist; simp at hhist
  have hdropLen : (hist.drop 1).length = 23 := by
    simp [hhist]
  have hall : history_samples hist hs = hs := by
    rw [history_samples_eq_drop_append hs hist (by omega), hhs, hhist.symm,
      List.drop_length, List.nil_append]
  refine ⟨?_, ?_, hall, by rw [hall], by rw [hall]⟩
  · intro i hi
    unfold history_sample
    rw [List.getElem?_append_left (by omega), getElem?_drop_one hist i hne]
  · unfold history_sample
    rw [List.getElem?_append_right (by omega), hdropLen]
    simp

/-- Witness for **C7**: starting from the all-zero history and sampling
the 24 heights `0, 1, …, 23`, the history ends up equal to that sample
sequence, its tail entry being the most recent sample. -/
theorem history_strict_fifo_witness :
    (history_sample (List.replicate 24 0) 7)[23]? = some 7 ∧
    history_samples (List.replicate 24 0) (List.range 24) = List.range 24 :=
  ⟨(history_strict_fifo (List.replicate 24 0) 7 (List.range 24)
      (by simp) (by simp)).2.1,
   (history_strict_fifo (List.replicate 24 0) 7 (List.range 24)
      (by simp) (by simp)).2.2.1⟩

/-- C's `(int)` cast on a rational: truncation toward zero. -/
def truncQ (q : ℚ) : Int :=
  if q < 0 then -((-q).floor) else q.floor

/-- Checked division: C float division modelled as fallible, `none` exactly
when the divisor is zero. -/
def divQ? (a b : ℚ) : Option ℚ :=
  if b = 0 then none else some (a / b)

/-- `delta_to_height(delta, maxDelta)` from `matrix_graph.cpp`.  Float
arithmetic is modelled over `ℚ`; `sqrtf` is an explicit parameter `sqrtF`
(floating point is not embeddable and the claim is independent of the
curve's shape).  The division by `maxDelta` is the checked `divQ?`, making
the function `Option`-valued: it returns `none` exactly when a division by
zero would be reached.  `ROWS = HT1632C_HEIGHT = 8`. -/
def delta_to_height? (sqrtF : ℚ → ℚ) (delta maxDelta : Int) : Option Nat :=
  if delta ≤ 0 ∨ maxDelta ≤ 0 then some 0
  else
    (divQ? (delta : ℚ) (maxDelta : ℚ)).map (fun normalised0 =>
      let normalised := if normalised0 > 1 then 1 else normalised0
      let curved := sqrtF normalised
      let h := truncQ (curved * (HT1632C_HEIGHT : ℚ) + 1 / 2)
      let h2 := if h > (HT1632C_HEIGHT : Int) then (HT1632C_HEIGHT : Int) else h
      h2.toNat)

/-- The sampling call in `matrix_graph_tick` (line 267):
`delta_to_height((int)(smoothedDelta + 0.5f), maxDelta)`, with `maxDelta`
passed through verbatim from the public interface. -/
def matrix_graph_sample (sqrtF : ℚ → ℚ) (smoothedDelta : ℚ)
    (maxDelta : Int) : Option Nat :=
  delta_to_height? sqrtF (truncQ (smoothedDelta + 1 / 2)) maxDelta

theorem delta_to_height?_isSome (sqrtF : ℚ → ℚ) (delta maxDelta : Int) :
    (delta_to_height? sqrtF delta maxDelta).isSome = true := by
  unfold delta_to_height?
  by_cases hguard : delta ≤ 0 ∨ maxDelta ≤ 0
  · rw [if_pos hguard]; rfl
  · rw [if_neg hguard]
    have hm : 0 < maxDelta := by
      rcases Int.lt_or_le 0 maxDelta with h | h
      · exact h
      · exact absurd (Or.inr h) hguard
    have hmq : (maxDelta : ℚ) ≠ 0 := by
      exact_mod_cast Int.ne_of_gt hm
    simp [divQ?, hmq]

/-- **C10** — confirmed.  `delta_to_height` returns 0 whenever
`delta ≤ 0` or `maxDelta ≤ 0`; the division by `maxDelta` is guarded so the
function is total (`isSome`) on *all* integer inputs and for *every*
response curve, including `maxDelta = 0` arriving verbatim through the
public `matrix_graph_tick` sampling call. -/
theorem delta_to_height_total_and_guarded (sqrtF : ℚ → ℚ)
    (delta maxDelta : Int) (smoothedDelta : ℚ) :
    (delta_to_height? sqrtF delta maxDelta).isSome = true ∧
    ((delta ≤ 0 ∨ maxDelta ≤ 0) →
      delta_to_height? sqrtF delta maxDelta = some 0) ∧
    (matrix_graph_sample sqrtF smoothedDelta maxDelta).isSome = true := by
  refine ⟨delta_to_height?_isSome sqrtF delta maxDelta, ?_,
    delta_to_height?_isSome sqrtF _ maxDelta⟩
  intro hguard
  unfold delta_to_height?
  rw [if_pos hguard]

/-- Witness for **C10**: the identity curve at `delta = −1`,
`maxDelta = 0` — the call is total and returns height 0. -/
theorem delta_to_height_total_and_guarded_witness :
    (delta_to_height? (fun q => q) (-1) 0).isSome = true ∧
    delta_to_height? (fun q => q) (-1) 0 = some 0 ∧
    (matrix_graph_sample (fun q => q) 0 0).isSome = true :=
  ⟨(delta_to_height_total_and_guarded (fun q => q) (-1) 0 0).1,
   (delta_to_height_total_and_guarded (fun q => q) (-1) 0 0).2.1
     (Or.inl (by norm_num)),
   (delta_to_height_total_and_guarded (fun q => q) (-1) 0 0).2.2⟩

/-! ## Bulk transfer driver, asynchronous path (colour_lcd.cpp)

The interleaving of the tick context (which runs `lcd_send_frame_async`)
and the interrupt context (which runs `onDmaComplete`) is modelled as a
small-step machine.  A successful `lcd_send_frame_async` body is split at
every point where the DMA-completion interrupt could preempt it:
after the busy check, the window setup / CS assertion
(program counter 0 → 1), the `dmaBusy = true` store (1 → 2), and the
`SPI.transfer` arming call (2 → done).  `onDmaComplete` may fire whenever a
transfer is in flight. -/

/-- State shared between the tick context and the DMA interrupt:
the `volatile bool dmaBusy` flag, whether a DMA transfer is armed and
in flight, and the program counter inside `lcd_send_frame_async`
(`none` = not currently executing the post-check body). -/
structure DmaMachine where
  dmaBusy : Bool
  inFlight : Bool
  pc : Option Nat
deriving DecidableEq

/-- One step of the system: the tick context entering or advancing through
`lcd_send_frame_async`, or the completion interrupt firing. -/
inductive DmaStep : DmaMachine → DmaMachine → Prop where
  | start (s : DmaMachine) : s.pc = none → s.dmaBusy = false →
      DmaStep s { s with pc := some 0 }
  | setWindow (s : DmaMachine) : s.pc = some 0 →
      DmaStep s { s with pc := some 1 }
  | setBusy (s : DmaMachine) : s.pc = some 1 →
      DmaStep s { s with dmaBusy := true, pc := some 2 }
  | armDma (s : DmaMachine) : s.pc = some 2 →
      DmaStep s { s with inFlight := true, pc := none }
  | complete (s : DmaMachine) : s.inFlight = true →
      DmaStep s { s with inFlight := false, dmaBusy := false }

/-- The idle power-on state: not busy, nothing in flight, not executing. -/
def DmaInit : DmaMachine := ⟨false, false, none⟩

/-- States reachable from the idle state under any interleaving. -/
def DmaReachable (s : DmaMachine) : Prop :=
  Relation.ReflTransGen DmaStep DmaInit s

/-- The inductive invariant: a transfer in flight implies the busy flag is
already observable; the post-check body never runs with a transfer in
flight; at the arming point the busy flag is already set. -/
def DmaInv (s : DmaMachine) : Prop :=
  (s.inFlight = true → s.dmaBusy = true) ∧
  (s.pc ≠ none → s.inFlight = false) ∧
  (s.pc = some 2 → s.dmaBusy = true)

theorem dmaInv_step {s t : DmaMachine} (hstep : DmaStep s t) (hinv : DmaInv s) :
    DmaInv t := by
  obtain ⟨h1, h2, h3⟩ := hinv
  cases hstep with
  | start hpc hbusy =>
    have hnf : s.inFlight = false := by
      cases hsf : s.inFlight with
      | false => rfl
      | true => rw [h1 hsf] at hbusy; exact Bool.noConfusion hbusy
    exact ⟨fun hf => h1 hf, fun _ => hnf, fun hc => by simp at hc⟩
  | setWindow hpc =>
    exact ⟨h1, fun _ => h2 (by rw [hpc]; simp), fun hc => by simp at hc⟩
  | setBusy hpc =>
    exact ⟨fun _ => rfl, fun _ => h2 (by rw [hpc]; simp), fun _ => rfl⟩
  | armDma hpc =>
    exact ⟨fun _ => h3 hpc, fun hne => absurd rfl hne, fun hc => by simp at hc⟩
  | complete hf =>
    exact ⟨fun hcontra => Bool.noConfusion hcontra, fun _ => rfl, fun hc => by
      have hnone : s.pc ≠ none := by
        rw [show s.pc = some 2 from hc]; simp
      have := h2 hnone
      rw [this] at hf
      exact Bool.noConfusion hf⟩

theorem dmaInv_reachable {s : DmaMachine} (hreach : DmaReachable s) : DmaInv s := by
  induction hreach with
  | refl => exact ⟨fun h => Bool.noConfusion h, fun h => rfl, fun h => Option.noConfusion h⟩
  | tail _ hstep ih => exact dmaInv_step hstep ih

/-- **C3** — confirmed.  In the micro-step model of `lcd_send_frame_async`
and `onDmaComplete`, where the busy flag is stored *before* the transfer is
armed (as in the code, lines 358 and 369), no reachable state has a DMA
transfer in flight while the busy flag reads `false`. -/
theorem busy_set_before_arming (s : DmaMachine) (hreach : DmaReachable s)
    (hflight : s.inFlight = true) : s.dmaBusy = true :=
  (dmaInv_reachable hreach).1 hflight

/-- Witness for **C3**: the state reached by one full successful
`lcd_send_frame_async` execution (busy set, transfer in flight) is
reachable, and the theorem yields its busy flag. -/
theorem busy_set_before_arming_witness :
    DmaReachable ⟨true, true, none⟩ ∧
    (⟨true, true, none⟩ : DmaMachine).dmaBusy = true := by
  have step1 : DmaStep DmaInit ⟨false, false, some 0⟩ :=
    DmaStep.start DmaInit rfl rfl
  have step2 : DmaStep ⟨false, false, some 0⟩ ⟨false, false, some 1⟩ :=
    DmaStep.setWindow _ rfl
  have step3 : DmaStep ⟨false, false, some 1⟩ ⟨true, false, some 2⟩ :=
    DmaStep.setBusy _ rfl
  have step4 : DmaStep ⟨true, false, some 2⟩ ⟨true, true, none⟩ :=
    DmaStep.armDma _ rfl
  have hrefl : Relation.ReflTransGen DmaStep DmaInit DmaInit :=
    Relation.ReflTransGen.refl
  have hchain : DmaReachable ⟨true, true, none⟩ :=
    (((hrefl.tail step1).tail step2).tail step3).tail step4
  exact ⟨hchain, busy_set_before_arming ⟨true, true, none⟩ hchain rfl⟩

/-! ## Fire simulation (fire_effect.cpp)

`fireBuffer` is a flat `uint8_t` array accessed exclusively through
`FIRE_PIXEL(x, y) = fireBuffer[y * FIRE_WIDTH + x]` with `x < FIRE_WIDTH`;
it is modelled as the curried function `Grid = Nat → Nat → Nat`
(`g x y` = heat of cell `(x, y)`), updated pointwise.  Arduino `random` is
modelled by a stream `rng : Nat → Nat` of its successive return values —
call `i` of the step returns `rng i`, two calls per cell in the `(y, x)`
iteration order of the loops; `random(0, 3)` yields values in `0..2` and
`random(0, 256)` values in `0..255`, captured by `% 3` / `% 256`. -/

/-- `FIRE_WIDTH` from `fire_effect.h`. -/
def FIRE_WIDTH : Nat := 60

/-- `FIRE_HEIGHT` from `fire_effect.h`. -/
def FIRE_HEIGHT : Nat := 70

/-- `PALETTE_SIZE` from `fire_effect.cpp`: heat values range over
`0 .. PALETTE_SIZE - 1 = 36`. -/
def PALETTE_SIZE : Nat := 37

/-- The heat grid: `g x y` is the heat of cell `(x, y)`. -/
def Grid : Type := Nat → Nat → Nat

/-- Pointwise grid write `FIRE_PIXEL(x, y) = v`. -/
def updG (g : Grid) (x y v : Nat) : Grid :=
  fun x' y' => if x' = x ∧ y' = y then v else g x' y'

/-- `int wind = (random(0, 256) & 3) - 1;` — values in `-1 .. 2`. -/
def windOf (rng : Nat → Nat) (k : Nat) : Int :=
  (((rng k % 256) &&& 3 : Nat) : Int) - 1

/-- `int destX = constrain(x + wind, 0, FIRE_WIDTH - 1);` (Arduino
`constrain` is the low/high clamp if-chain). -/
def destXOf (x : Nat) (wind : Int) : Nat :=
  let xw : Int := (x : Int) + wind
  (if xw < 0 then 0
   else if xw > (FIRE_WIDTH : Int) - 1 then (FIRE_WIDTH : Int) - 1
   else xw).toNat

/-- The loop body of `fire_step` for cell `(x, y)`: read the heat below,
cool it by `random(0, 3)` (floored at zero — `Nat` subtraction), and write
it at the wind-displaced column of the current row. -/
def coolCell (rng : Nat → Nat) (g : Grid) (x y : Nat) : Grid :=
  let k := 2 * (y * FIRE_WIDTH + x)
  let srcHeat := g x (y + 1)
  let cooling := rng k % 3
  let destX := destXOf x (windOf rng (k + 1))
  updG g destX y (srcHeat - cooling)

/-- Inner loop `for (x = 0; x < FIRE_WIDTH; x++)` of `fire_step`,
as fuel/start-index recursion. -/
def goX (rng : Nat → Nat) (y : Nat) : Nat → Nat → Grid → Grid
  | 0, _, g => g
  | n + 1, x, g => goX rng y n (x + 1) (coolCell rng g x y)

/-- Outer loop `for (y = 0; y < FIRE_HEIGHT - 1; y++)` of `fire_step`. -/
def goY (rng : Nat → Nat) : Nat → Nat → Grid → Grid
  | 0, _, g => g
  | n + 1, y, g => goY rng n (y + 1) (goX rng y FIRE_WIDTH 0 g)

/-- `fire_step()` from `fire_effect.cpp`: the in-place simulation step. -/
def fire_step (rng : Nat → Nat) (g : Grid) : Grid :=
  goY rng (FIRE_HEIGHT - 1) 0 g

/-- Reference loop body for the refinement claim, following the spec's
words: identical to `coolCell` except that the source read of row `y + 1`
observes the fixed pre-step grid `g0`. -/
def coolCellSpec (rng : Nat → Nat) (g0 g : Grid) (x y : Nat) : Grid :=
  let k := 2 * (y * FIRE_WIDTH + x)
  let srcHeat := g0 x (y + 1)
  let cooling := rng k % 3
  let destX := destXOf x (windOf rng (k + 1))
  updG g destX y (srcHeat - cooling)

/-- Reference inner loop reading from the pre-step grid `g0`. -/
def goXSpec (rng : Nat → Nat) (g0 : Grid) (y : Nat) : Nat → Nat → Grid → Grid
  | 0, _, g => g
  | n + 1, x, g => goXSpec rng g0 y n (x + 1) (coolCellSpec rng g0 g x y)

/-- Reference outer loop reading from the pre-step grid `g0`. -/
def goYSpec (rng : Nat → Nat) (g0 : Grid) : Nat → Nat → Grid → Grid
  | 0, _, g => g
  | n + 1, y, g => goYSpec rng g0 n (y + 1) (goXSpec rng g0 y FIRE_WIDTH 0 g)

/-- The reference simulation step: every source read of row `y + 1`
observes that row's value from before the step began. -/
def fire_stepSpec (rng : Nat → Nat) (g : Grid) : Grid :=
  goYSpec rng g (FIRE_HEIGHT - 1) 0 g

/-- The fuel-row seeding loop of `fire_init()`:
`FIRE_PIXEL(x, FIRE_HEIGHT - 1) = PALETTE_SIZE - 1` for `x = 0 .. 59`. -/
def seedGo : Nat → Nat → Grid → Grid
  | 0, _, g => g
  | n + 1, x, g =>
      seedGo n (x + 1) (updG g x (FIRE_HEIGHT - 1) (PALETTE_SIZE - 1))

/-- The heat grid after `fire_init()`: zeroed (`memset`), then the fuel row
seeded to maximum heat. -/
def fireInitGrid : Grid := seedGo FIRE_WIDTH 0 (fun _ _ => 0)

/-- `n` simulation steps from a grid; step `i` consumes the random stream
`rngs i`. -/
def fire_stepN (rngs : Nat → Nat → Nat) : Nat → Grid → Grid
  | 0, g => g
  | n + 1, g => fire_stepN rngs n (fire_step (rngs n) g)

/-! ### Locality of the simulation loops -/

theorem destXOf_lt (x : Nat) (wind : Int) : destXOf x wind < FIRE_WIDTH := by
  unfold destXOf FIRE_WIDTH
  simp only []
  split
  · decide
  · split
    · decide
    · omega

theorem coolCell_other_row (rng : Nat → Nat) (g : Grid) (x y x' y' : Nat)
    (hy : y' ≠ y) : coolCell rng g x y x' y' = g x' y' := by
  unfold coolCell updG
  exact if_neg (fun hc => hy hc.2)

theorem coolCellSpec_other_row (rng : Nat → Nat) (g0 g : Grid) (x y x' y' : Nat)
    (hy : y' ≠ y) : coolCellSpec rng g0 g x y x' y' = g x' y' := by
  unfold coolCellSpec updG
  exact if_neg (fun hc => hy hc.2)

theorem goX_other_row (rng : Nat → Nat) (y : Nat) :
    ∀ (n x : Nat) (g : Grid) (x' y' : Nat), y' ≠ y →
      goX rng y n x g x' y' = g x' y' := by
  intro n
  induction n with
  | zero => intro x g x' y' _; rfl
  | succ n ih =>
    intro x g x' y' hy
    unfold goX
    rw [ih (x + 1) _ x' y' hy, coolCell_other_row rng g x y x' y' hy]

theorem goY_above_rows (rng : Nat → Nat) :
    ∀ (n y : Nat) (g : Grid) (x' y' : Nat), y + n ≤ y' →
      goY rng n y g x' y' = g x' y' := by
  intro n
  induction n with
  | zero => intro y g x' y' _; rfl
  | succ n ih =>
    intro y g x' y' hle
    unfold goY
    rw [ih (y + 1) _ x' y' (by omega),
      goX_other_row rng y FIRE_WIDTH 0 g x' y' (by omega)]

/-! ### C5: the in-place step equals the read-before-write reference -/

theorem coolCell_eq_spec (rng : Nat → Nat) (g0 g : Grid) (x y : Nat)
    (hread : g x (y + 1) = g0 x (y + 1)) :
    coolCell rng g x y = coolCellSpec rng g0 g x y := by
  unfold coolCell coolCellSpec
  rw [hread]

theorem goX_eq_spec (rng : Nat → Nat) (g0 : Grid) (y : Nat) :
    ∀ (n x : Nat) (g : Grid), (∀ a, g a (y + 1) = g0 a (y + 1)) →
      goX rng y n x g = goXSpec rng g0 y n x g := by
  intro n
  induction n with
  | zero => intro x g _; rfl
  | succ n ih =>
    intro x g hagree
    unfold goX goXSpec
    rw [coolCell_eq_spec rng g0 g x y (hagree x)]
    exact ih (x + 1) _ (fun a => by
      rw [coolCellSpec_other_row rng g0 g x y a (y + 1) (by omega)]
      exact hagree a)

theorem goXSpec_other_row (rng : Nat → Nat) (g0 : Grid) (y : Nat) :
    ∀ (n x : Nat) (g : Grid) (x' y' : Nat), y' ≠ y →
      goXSpec rng g0 y n x g x' y' = g x' y' := by
  intro n
  induction n with
  | zero => intro x g x' y' _; rfl
  | succ n ih =>
    intro x g x' y' hy
    unfold goXSpec
    rw [ih (x + 1) _ x' y' hy, coolCellSpec_other_row rng g0 g x y x' y' hy]

theorem goY_eq_spec (rng : Nat → Nat) (g0 : Grid) :
    ∀ (n y : Nat) (g : Grid), (∀ a b, y + 1 ≤ b → g a b = g0 a b) →
      goY rng n y g = goYSpec rng g0 n y g := by
  intro n
  induction n with
  | zero => intro y g _; rfl
  | succ n ih =>
    intro y g hagree
    unfold goY goYSpec
    rw [goX_eq_spec rng g0 y FIRE_WIDTH 0 g (fun a => hagree a (y + 1) (by omega))]
    exact ih (y + 1) _ (fun a b hb => by
      rw [goXSpec_other_row rng g0 y FIRE_WIDTH 0 g a b (by omega)]
      exact hagree a b (by omega))

/-- **C5** — confirmed.  For every grid state and every random sequence,
the in-place top-to-bottom `fire_step` equals the reference step in which
every source read of row `y + 1` observes that row's pre-step value: rows
are written strictly top-to-bottom and each pass reads only the row below,
which has not yet been written this step. -/
theorem fire_step_reads_prestep_values (rng : Nat → Nat) (g : Grid) :
    fire_step rng g = fire_stepSpec rng g :=
  goY_eq_spec rng g (FIRE_HEIGHT - 1) 0 g (fun _ _ _ => rfl)

/-! ### C4: heat bounds and the fuel-row invariant -/

/-- The grid invariant of the simulation: every cell within
`[0, PALETTE_SIZE - 1]` (the lower bound is inherent to `Nat`), and every
fuel-row cell at exactly the maximum heat. -/
def FireInv (g : Grid) : Prop :=
  (∀ a b, g a b ≤ PALETTE_SIZE - 1) ∧
  (∀ a, a < FIRE_WIDTH → g a (FIRE_HEIGHT - 1) = PALETTE_SIZE - 1)

theorem coolCell_le (rng : Nat → Nat) (g : Grid) (x y : Nat)
    (hg : ∀ a b, g a b ≤ PALETTE_SIZE - 1) :
    ∀ a b, coolCell rng g x y a b ≤ PALETTE_SIZE - 1 := by
  intro a b
  unfold coolCell updG
  split
  · exact Nat.le_trans (Nat.sub_le _ _) (hg x (y + 1))
  · exact hg a b

theorem goX_le (rng : Nat → Nat) (y : Nat) :
    ∀ (n x : Nat) (g : Grid), (∀ a b, g a b ≤ PALETTE_SIZE - 1) →
      ∀ a b, goX rng y n x g a b ≤ PALETTE_SIZE - 1 := by
  intro n
  induction n with
  | zero => intro x g hg a b; exact hg a b
  | succ n ih =>
    intro x g hg a b
    exact ih (x + 1) _ (coolCell_le rng g x y hg) a b

theorem goY_le (rng : Nat → Nat) :
    ∀ (n y : Nat) (g : Grid), (∀ a b, g a b ≤ PALETTE_SIZE - 1) →
      ∀ a b, goY rng n y g a b ≤ PALETTE_SIZE - 1 := by
  intro n
  induction n with
  | zero => intro y g hg a b; exact hg a b
  | succ n ih =>
    intro y g hg a b
    exact ih (y + 1) _ (goX_le rng y FIRE_WIDTH 0 g hg) a b

theorem seedGo_other_col :
    ∀ (n x : Nat) (g : Grid) (a b : Nat), a < x →
      seedGo n x g a b = g a b := by
  intro n
  induction n with
  | zero => intro x g a b _; rfl
  | succ n ih =>
    intro x g a b ha
    unfold seedGo updG
    rw [ih (x + 1) _ a b (by omega)]
    exact if_neg (fun hc => by omega)

theorem seedGo_sets :
    ∀ (n x : Nat) (g : Grid) (a : Nat), x ≤ a → a < x + n →
      seedGo n x g a (FIRE_HEIGHT - 1) = PALETTE_SIZE - 1 := by
  intro n
  induction n with
  | zero => intro x g a hle hlt; omega
  | succ n ih =>
    intro x g a hle hlt
    rcases Nat.eq_or_lt_of_le hle with heq | hlt'
    · unfold seedGo
      rw [seedGo_other_col n (x + 1) _ a (FIRE_HEIGHT - 1) (by omega)]
      unfold updG
      rw [if_pos ⟨heq.symm, rfl⟩]
    · exact ih (x + 1) _ a (by omega) (by omega)

theorem seedGo_le :
    ∀ (n x : Nat) (g : Grid), (∀ a b, g a b ≤ PALETTE_SIZE - 1) →
      ∀ a b, seedGo n x g a b ≤ PALETTE_SIZE - 1 := by
  intro n
  induction n with
  | zero => intro x g hg a b; exact hg a b
  | succ n ih =>
    intro x g hg a b
    refine ih (x + 1) _ (fun a' b' => ?_) a b
    unfold updG
    split
    · exact Nat.le_refl _
    · exact hg a' b'

theorem fireInitGrid_inv : FireInv fireInitGrid := by
  constructor
  · exact seedGo_le FIRE_WIDTH 0 (fun _ _ => 0) (fun _ _ => Nat.zero_le _)
  · intro a ha
    exact seedGo_sets FIRE_WIDTH 0 (fun _ _ => 0) a (Nat.zero_le a) (by omega)

theorem fireInv_step (rng : Nat → Nat) (g : Grid) (hinv : FireInv g) :
    FireInv (fire_step rng g) := by
  obtain ⟨hbound, hfuel⟩ := hinv
  constructor
  · exact goY_le rng (FIRE_HEIGHT - 1) 0 g hbound
  · intro a ha
    unfold fire_step
    rw [goY_above_rows rng (FIRE_HEIGHT - 1) 0 g a (FIRE_HEIGHT - 1) (by omega)]
    exact hfuel a ha

theorem fireInv_stepN (rngs : Nat → Nat → Nat) :
    ∀ (n : Nat) (g : Grid), FireInv g → FireInv (fire_stepN rngs n g) := by
  intro n
  induction n with
  | zero => intro g hinv; exact hinv
  | succ n ih => intro g hinv; exact ih _ (fireInv_step (rngs n) g hinv)

/-- **C4** — confirmed.  Starting from the state produced by `fire_init`,
after any number of simulation steps (under every random sequence) every
cell of the fuel row `FIRE_HEIGHT - 1` still holds the maximum heat
`PALETTE_SIZE - 1 = 36`, and every cell of the grid holds a value in
`[0, 36]` (the lower bound holds in `Nat`). -/
theorem fire_fuel_row_invariant (rngs : Nat → Nat → Nat) (n x y : Nat)
    (hx : x < FIRE_WIDTH) (hy : y < FIRE_HEIGHT) :
    fire_stepN rngs n fireInitGrid x y ≤ PALETTE_SIZE - 1 ∧
    (y = FIRE_HEIGHT - 1 →
      fire_stepN rngs n fireInitGrid x y = PALETTE_SIZE - 1) := by
  have hinv := fireInv_stepN rngs n fireInitGrid fireInitGrid_inv
  exact ⟨hinv.1 x y, fun hyeq => by rw [hyeq]; exact hinv.2 x hx⟩

/-- Witness for **C4**: after 3 steps under the all-zero random stream,
fuel-row cell `(5, 69)` is still at maximum heat 36 and within bounds. -/
theorem fire_fuel_row_invariant_witness :
    fire_stepN (fun _ _ => 0) 3 fireInitGrid 5 (FIRE_HEIGHT - 1)
      ≤ PALETTE_SIZE - 1 ∧
    fire_stepN (fun _ _ => 0) 3 fireInitGrid 5 (FIRE_HEIGHT - 1)
      = PALETTE_SIZE - 1 :=
  ⟨(fire_fuel_row_invariant (fun _ _ => 0) 3 5 (FIRE_HEIGHT - 1)
      (by decide) (by decide)).1,
   (fire_fuel_row_invariant (fun _ _ => 0) 3 5 (FIRE_HEIGHT - 1)
      (by decide) (by decide)).2 rfl⟩

/-! ## Colour pipeline state: render, publish, frame skip
(colour_lcd.cpp + fire_effect.cpp) -/

/-- `LCD_WIDTH` from `colour_lcd.h`. -/
def LCD_WIDTH : Nat := 240

/-- `LCD_HEIGHT` from `colour_lcd.h`. -/
def LCD_HEIGHT : Nat := 280

/-- `LCD_PIXEL_COUNT = LCD_WIDTH * LCD_HEIGHT` from `colour_lcd.h`. -/
def LCD_PIXEL_COUNT : Nat := LCD_WIDTH * LCD_HEIGHT

/-- `FIRE_SCALE` from `fire_effect.cpp`: LCD pixels per fire cell. -/
def FIRE_SCALE : Nat := 4

/-- The `RGB565(r, g, b)` macro from `colour_lcd.h`. -/
def RGB565 (r g b : Nat) : Nat :=
  ((r >>> 3) <<< 11) ||| ((g >>> 2) <<< 5) ||| (b >>> 3)

/-- `__builtin_bswap16`: swap the two bytes of a 16-bit value. -/
def bswap16 (v : Nat) : Nat :=
  ((v &&& 0xFF) <<< 8) ||| ((v >>> 8) &&& 0xFF)

/-- The `RGB565_BE(r, g, b)` macro from `colour_lcd.h`: byte-swapped
RGB565 for DMA buffers. -/
def RGB565_BE (r g b : Nat) : Nat := bswap16 (RGB565 r g b)

/-- `firePalette` from `fire_effect.cpp`: the 37 pre-swapped fire colours
(heat 0..36). -/
def firePalette : List Nat :=
  [RGB565_BE 0x07 0x07 0x07, RGB565_BE 0x1F 0x07 0x07, RGB565_BE 0x2F 0x0F 0x07,
   RGB565_BE 0x47 0x0F 0x07, RGB565_BE 0x57 0x17 0x07, RGB565_BE 0x67 0x1F 0x07,
   RGB565_BE 0x77 0x1F 0x07, RGB565_BE 0x8F 0x27 0x07, RGB565_BE 0x9F 0x2F 0x07,
   RGB565_BE 0xAF 0x3F 0x07, RGB565_BE 0xBF 0x47 0x07, RGB565_BE 0xC7 0x47 0x07,
   RGB565_BE 0xDF 0x4F 0x07, RGB565_BE 0xDF 0x57 0x07, RGB565_BE 0xDF 0x57 0x07,
   RGB565_BE 0xD7 0x5F 0x07, RGB565_BE 0xD7 0x5F 0x07, RGB565_BE 0xD7 0x67 0x0F,
   RGB565_BE 0xCF 0x6F 0x0F, RGB565_BE 0xCF 0x77 0x0F, RGB565_BE 0xCF 0x7F 0x0F,
   RGB565_BE 0xCF 0x87 0x17, RGB565_BE 0xC7 0x87 0x17, RGB565_BE 0xC7 0x8F 0x17,
   RGB565_BE 0xC7 0x97 0x1F, RGB565_BE 0xBF 0x9F 0x1F, RGB565_BE 0xBF 0x9F 0x1F,
   RGB565_BE 0xBF 0xA7 0x27, RGB565_BE 0xBF 0xA7 0x27, RGB565_BE 0xBF 0xAF 0x2F,
   RGB565_BE 0xB7 0xAF 0x2F, RGB565_BE 0xB7 0xB7 0x2F, RGB565_BE 0xB7 0xB7 0x37,
   RGB565_BE 0xCF 0xCF 0x6F, RGB565_BE 0xDF 0xDF 0x9F, RGB565_BE 0xEF 0xEF 0xC7,
   RGB565_BE 0xFF 0xFF 0xFF]

/-- Palette lookup `firePalette[heat]` (in-bounds for heat ≤ 36, which C4
guarantees for simulated grids). -/
def firePaletteAt (heat : Nat) : Nat := firePalette.getD heat 0

/-- A colour pixel buffer: flat offset ↦ pre-swapped RGB565 value
(`uint16_t pixelBuf[i][LCD_PIXEL_COUNT]`, one half). -/
def PixBuf : Type := Nat → Nat

/-- Pointwise pixel-buffer write. -/
def updB (buf : PixBuf) (i v : Nat) : PixBuf :=
  fun j => if j = i then v else buf j

/-- The innermost body of `fire_render_to_buffer`: one fire cell written
`FIRE_SCALE = 4` times horizontally at `offset .. offset + 3`. -/
def renderCell (g : Grid) (x y offset : Nat) (buf : PixBuf) : PixBuf :=
  let colour := firePaletteAt (g x y)
  updB (updB (updB (updB buf offset colour) (offset + 1) colour)
    (offset + 2) colour) (offset + 3) colour

/-- `for (x = 0; x < FIRE_WIDTH; x++)` of `fire_render_to_buffer`,
threading the running offset. -/
def renderRowX (g : Grid) (y : Nat) : Nat → Nat → Nat → PixBuf → Nat × PixBuf
  | 0, _, offset, buf => (offset, buf)
  | n + 1, x, offset, buf =>
      renderRowX g y n (x + 1) (offset + FIRE_SCALE) (renderCell g x y offset buf)

/-- `for (rep = 0; rep < FIRE_SCALE; rep++)`: each fire row emitted four
times for vertical scaling. -/
def renderReps (g : Grid) (y : Nat) : Nat → Nat → PixBuf → Nat × PixBuf
  | 0, offset, buf => (offset, buf)
  | n + 1, offset, buf =>
      let p := renderRowX g y FIRE_WIDTH 0 offset buf
      renderReps g y n p.1 p.2

/-- `for (y = 0; y < FIRE_HEIGHT; y++)` of `fire_render_to_buffer`. -/
def renderRows (g : Grid) : Nat → Nat → Nat → PixBuf → Nat × PixBuf
  | 0, _, offset, buf => (offset, buf)
  | n + 1, y, offset, buf =>
      let p := renderReps g y FIRE_SCALE offset buf
      renderRows g n (y + 1) p.1 p.2

/-- `fire_render_to_buffer(buf)` from `fire_effect.cpp`: rasterize the heat
grid 4×-scaled, sequentially left-to-right / top-to-bottom. -/
def fire_render_to_buffer (g : Grid) (buf : PixBuf) : PixBuf :=
  (renderRows g FIRE_HEIGHT 0 0 buf).2

/-- The state shared by the bulk-transfer driver and the fire engine:
the `volatile` busy flag, the armed DMA transfer (front-buffer index and
byte count; `none` when idle), the two halves of the pixel double buffer,
`writeIndex`, and the heat grid. -/
structure SysState where
  dmaBusy : Bool
  inFlight : Option (Nat × Nat)
  pixelBuf0 : PixBuf
  pixelBuf1 : PixBuf
  writeIndex : Nat
  fireGrid : Grid

/-- `lcd_frame_busy()` from `colour_lcd.cpp`: non-blocking poll of the
busy flag. -/
def lcd_frame_busy (s : SysState) : Bool := s.dmaBusy

/-- `lcd_send_frame_async(pixelData, pixelCount)` from `colour_lcd.cpp`
as one big step (its internal ordering is the subject of `DmaStep`):
fail-fast `false` when busy; otherwise set the window, assert CS/DC, set
the busy flag and arm the DMA with the buffer and `pixelCount * 2` bytes.
The buffer pointer is identified by its double-buffer index. -/
def lcd_send_frame_async (s : SysState) (bufIdx pixelCount : Nat) :
    Bool × SysState :=
  if s.dmaBusy then (false, s)
  else (true, { s with dmaBusy := true, inFlight := some (bufIdx, pixelCount * 2) })

/-- `fire_tick()` from `fire_effect.cpp`: skip the whole tick when the
transfer driver is busy; otherwise simulate, render into
`pixelBuf[writeIndex]`, publish it via `lcd_send_frame_async`, and flip
`writeIndex`. -/
def fire_tick (rng : Nat → Nat) (s : SysState) : SysState :=
  if lcd_frame_busy s then s
  else
    let g' := fire_step rng s.fireGrid
    let buf' := fire_render_to_buffer g'
        (if s.writeIndex = 0 then s.pixelBuf0 else s.pixelBuf1)
    let s1 := if s.writeIndex = 0
      then { s with fireGrid := g', pixelBuf0 := buf' }
      else { s with fireGrid := g', pixelBuf1 := buf' }
    let s2 := (lcd_send_frame_async s1 s.writeIndex LCD_PIXEL_COUNT).2
    { s2 with writeIndex := 1 - s2.writeIndex }

/-- **C2** — confirmed.  Whenever the busy flag is set,
`lcd_send_frame_async` — with any buffer and any pixel count — returns
`false` and leaves the entire state (in particular the busy flag and the
contents of both pixel buffers) unchanged. -/
theorem send_frame_async_busy_rejects (s : SysState) (bufIdx pixelCount : Nat)
    (hbusy : s.dmaBusy = true) :
    (lcd_send_frame_async s bufIdx pixelCount).1 = false ∧
    (lcd_send_frame_async s bufIdx pixelCount).2.dmaBusy = s.dmaBusy ∧
    (lcd_send_frame_async s bufIdx pixelCount).2.pixelBuf0 = s.pixelBuf0 ∧
    (lcd_send_frame_async s bufIdx pixelCount).2.pixelBuf1 = s.pixelBuf1 ∧
    (lcd_send_frame_async s bufIdx pixelCount).2 = s := by
  unfold lcd_send_frame_async
  rw [if_pos hbusy]
  exact ⟨rfl, rfl, rfl, rfl, rfl⟩

/-- Witness for **C2**: a concrete busy state with zeroed buffers; the call
is rejected and the state survives untouched. -/
theorem send_frame_async_busy_rejects_witness :
    (lcd_send_frame_async
        ⟨true, some (1, 134400), fun _ => 0, fun _ => 0, 0, fun _ _ => 0⟩
        0 LCD_PIXEL_COUNT).1 = false ∧
    (lcd_send_frame_async
        ⟨true, some (1, 134400), fun _ => 0, fun _ => 0, 0, fun _ _ => 0⟩
        0 LCD_PIXEL_COUNT).2
      = ⟨true, some (1, 134400), fun _ => 0, fun _ => 0, 0, fun _ _ => 0⟩ :=
  ⟨(send_frame_async_busy_rejects _ 0 LCD_PIXEL_COUNT rfl).1,
   (send_frame_async_busy_rejects _ 0 LCD_PIXEL_COUNT rfl).2.2.2.2⟩

/-- **C6** — confirmed.  Whenever the transfer driver reports busy,
`fire_tick` leaves the heat grid, both pixel buffers and the back-buffer
index unchanged and initiates no transfer: the whole tick is skipped. -/
theorem fire_tick_busy_skips (rng : Nat → Nat) (s : SysState)
    (hbusy : lcd_frame_busy s = true) :
    (fire_tick rng s).fireGrid = s.fireGrid ∧
    (fire_tick rng s).pixelBuf0 = s.pixelBuf0 ∧
    (fire_tick rng s).pixelBuf1 = s.pixelBuf1 ∧
    (fire_tick rng s).writeIndex = s.writeIndex ∧
    (fire_tick rng s).inFlight = s.inFlight ∧
    fire_tick rng s = s := by
  have htick : fire_tick rng s = s := by
    unfold fire_tick
    rw [if_pos hbusy]
  rw [htick]
  exact ⟨rfl, rfl, rfl, rfl, rfl, rfl⟩

/-- Witness for **C6**: a concrete busy state; the tick is a no-op. -/
theorem fire_tick_busy_skips_witness :
    fire_tick (fun _ => 0)
        ⟨true, some (0, 134400), fun _ => 0, fun _ => 0, 1, fun _ _ => 0⟩
      = ⟨true, some (0, 134400), fun _ => 0, fun _ => 0, 1, fun _ _ => 0⟩ :=
  (fire_tick_busy_skips (fun _ => 0)
      ⟨true, some (0, 134400), fun _ => 0, fun _ => 0, 1, fun _ _ => 0⟩
      rfl).2.2.2.2.2

end Nextgasm
